import Mathlib

/-!
Shallow embedding of `src/Assets/Model.cpp` (mesh ingestion and
vertex-deduplication engine) together with proofs of the specified
properties.

Modelling conventions:
* `float` attribute values are embedded as `ℚ` (the spec mandates bit-exact,
  epsilon-free comparison of attribute tuples, so exact rationals model the
  source's equality semantics faithfully; no floating-point rounding is
  relevant to any claim).
* `std::vector` becomes `List`; `uint32_t`/`size_t` indices become `Nat`,
  `int` material ids become `Int`.
* the `std::unordered_map<Vertex, uint32_t> uniqueVertices` is embedded as an
  association list `List (Vertex × Nat)` with exact-equality lookup, which is
  the map's observable behaviour (the hash function only affects bucketing).
* out-of-range `operator[]` reads (undefined behaviour in C++) are embedded
  as `List.getD` with a fixed default; claims that talk about the value read
  are stated under in-bounds preconditions or directly about the read.
* the external parser (tiny_obj_loader) and the icosphere generator are
  collaborators outside this translation unit: `LoadModel` is embedded as a
  function of the parsed data (`ObjAttrib`, shapes, materials) and
  `CreateSphere` as a function of an arbitrary generator.
* C++ exceptions (`Throw`) become `Except String`.
-/

namespace Assets

/-- Two-component vector (glm::vec2) with exact rational coordinates. -/
structure Vec2 where
  x : ℚ
  y : ℚ
  deriving DecidableEq

/-- Three-component vector (glm::vec3) with exact rational coordinates. -/
structure Vec3 where
  x : ℚ
  y : ℚ
  z : ℚ
  deriving DecidableEq

/-- Four-component vector (glm::vec4) with exact rational coordinates. -/
structure Vec4 where
  x : ℚ
  y : ℚ
  z : ℚ
  w : ℚ
  deriving DecidableEq

/-- A vertex record: position, normal, texture coordinate and material index.
Equality is field-wise over the full attribute tuple, exactly as the
`std::hash<Assets::Vertex>` / `operator==` pair used by `uniqueVertices`. -/
structure Vertex where
  Position : Vec3
  Normal : Vec3
  TexCoord : Vec2
  MaterialIndex : Int
  deriving DecidableEq

/-- A material; only the diffuse colour is relevant to the loader. -/
structure Material where
  Diffuse : Vec4
  deriving DecidableEq

/-- Analytic sphere descriptor (`new Sphere(center, radius)`). -/
structure Sphere where
  Center : Vec3
  Radius : ℚ
  deriving DecidableEq

/-- The Model aggregate: vertex buffer, index buffer, material table and the
optional analytic-shape descriptor (`procedural_`, a possibly-null pointer). -/
structure Model where
  vertices : List Vertex
  indices : List Nat
  materials : List Material
  procedural : Option Sphere
  deriving DecidableEq

/-! ### Parsed OBJ data (output of the external parser collaborator) -/

/-- One per-corner index record (`tinyobj::index_t`): indices into the flat
position / normal / texcoord arrays. -/
structure ObjIndex where
  vertex_index : Nat
  normal_index : Nat
  texcoord_index : Nat
  deriving DecidableEq

/-- One parsed shape: its corner list (`mesh.indices`) and per-face material
ids (`mesh.material_ids`, `-1` meaning unassigned). -/
structure Shape where
  indices : List ObjIndex
  material_ids : List Int
  deriving DecidableEq

/-- The flat attribute arrays (`tinyobj::attrib_t`). -/
structure ObjAttrib where
  vertices : List ℚ
  normals : List ℚ
  texcoords : List ℚ
  deriving DecidableEq

/-- A parsed material record; only the diffuse rgb triple is consumed. -/
structure ObjMaterial where
  diffuse0 : ℚ
  diffuse1 : ℚ
  diffuse2 : ℚ
  deriving DecidableEq

/-! ### Material resolution (`Model.cpp` lines 74-93) -/

/-- Conversion of one parsed material: keep the diffuse rgb, force alpha 1. -/
def toMaterial (m : ObjMaterial) : Material :=
  { Diffuse := ⟨m.diffuse0, m.diffuse1, m.diffuse2, 1⟩ }

/-- The fallback gray material inserted when the source provides none. -/
def defaultMaterial : Material :=
  { Diffuse := ⟨7/10, 7/10, 7/10, 1⟩ }

/-- Materials loop: map every parsed material, then insert the fallback when
the resulting list is empty. -/
def resolveMaterials (objMaterials : List ObjMaterial) : List Material :=
  let materials := objMaterials.map toMaterial
  if materials.isEmpty then [defaultMaterial] else materials

/-! ### Corner assembly (`Model.cpp` lines 105-132) -/

/-- Assembly of the `Vertex` record for one corner, reading the flat attribute
arrays at the corner's indices.  `faceId` is the value of the running counter
when this corner is visited (the source's `faceId++` reads it before the
increment).  Texcoords are V-flipped when the texcoord array is non-empty;
otherwise the zero-initialised default survives.  The material id is clamped
with `max 0`.  Out-of-range reads are undefined behaviour in the source and
are embedded as defaults (`0` for attribute floats, `-1` for material ids). -/
def makeVertex (attrib : ObjAttrib) (mids : List Int) (faceId : Nat)
    (index : ObjIndex) : Vertex :=
  { Position := ⟨attrib.vertices.getD (3 * index.vertex_index + 0) 0,
                 attrib.vertices.getD (3 * index.vertex_index + 1) 0,
                 attrib.vertices.getD (3 * index.vertex_index + 2) 0⟩
    Normal := ⟨attrib.normals.getD (3 * index.normal_index + 0) 0,
               attrib.normals.getD (3 * index.normal_index + 1) 0,
               attrib.normals.getD (3 * index.normal_index + 2) 0⟩
    TexCoord :=
      if attrib.texcoords.isEmpty then ⟨0, 0⟩
      else ⟨attrib.texcoords.getD (2 * index.texcoord_index + 0) 0,
            1 - attrib.texcoords.getD (2 * index.texcoord_index + 1) 0⟩
    MaterialIndex := max 0 (mids.getD (faceId / 3) (-1)) }

/-! ### The deduplicating vertex pool (`Model.cpp` lines 96-141) -/

/-- Loader state: the growing vertex buffer, the `uniqueVertices` map
(association list of vertex-to-assigned-index), the index buffer, and the
running face counter. -/
structure LoadState where
  vertices : List Vertex
  uniq : List (Vertex × Nat)
  indices : List Nat
  faceId : Nat
  deriving DecidableEq

/-- Exact-equality lookup in the `uniqueVertices` map. -/
def lookupUniq (l : List (Vertex × Nat)) (v : Vertex) : Option Nat :=
  match l with
  | [] => none
  | p :: rest => if p.1 = v then some p.2 else lookupUniq rest v

/-- Pool step for one assembled vertex: on a missing key, record
`uniqueVertices[vertex] = vertices.size()` and push the vertex; in both cases
push the mapped index.  The face counter is not touched here. -/
def internVertex (s : LoadState) (v : Vertex) : LoadState :=
  match lookupUniq s.uniq v with
  | some i => { s with indices := s.indices ++ [i] }
  | none =>
      { vertices := s.vertices ++ [v]
        uniq := s.uniq ++ [(v, s.vertices.length)]
        indices := s.indices ++ [s.vertices.length]
        faceId := s.faceId }

/-- One iteration of the inner corner loop: assemble the vertex with the
current counter value, bump the counter (`faceId++`), intern. -/
def internCorner (attrib : ObjAttrib) (mids : List Int) (s : LoadState)
    (index : ObjIndex) : LoadState :=
  internVertex { s with faceId := s.faceId + 1 }
    (makeVertex attrib mids s.faceId index)

/-- The per-shape loop body: fold the corner step over `mesh.indices` using
this shape's `material_ids`. -/
def processShape (attrib : ObjAttrib) (s : LoadState) (shape : Shape) :
    LoadState :=
  shape.indices.foldl (internCorner attrib shape.material_ids) s

/-- Initial loader state: empty buffers, empty map, counter zero. -/
def initState : LoadState := ⟨[], [], [], 0⟩

/-- The geometry section of `LoadModel`: fold the shape loop over all shapes
starting from the empty state.  The face counter is shared across shapes. -/
def loadGeometry (attrib : ObjAttrib) (shapes : List Shape) : LoadState :=
  shapes.foldl (processShape attrib) initState

/-- `Model::LoadModel`, after the external parse succeeded: resolve
materials, run the geometry loop, construct the Model with no procedural
descriptor. -/
def LoadModel (attrib : ObjAttrib) (shapes : List Shape)
    (objMaterials : List ObjMaterial) : Model :=
  { vertices := (loadGeometry attrib shapes).vertices
    indices := (loadGeometry attrib shapes).indices
    materials := resolveMaterials objMaterials
    procedural := none }

/-! ### Flat description of the corner stream

The stateful double loop visits, across all shapes, a flat sequence of
corners; the face counter assigns consecutive values across the shape
boundaries.  These definitions name that flat sequence so that facts about
the loop can be stated positionally. -/

/-- The assembled vertices of one shape's corners, with the face counter
starting at `faceId`. -/
def shapeCorners (attrib : ObjAttrib) (mids : List Int) :
    Nat → List ObjIndex → List Vertex
  | _, [] => []
  | faceId, index :: rest =>
      makeVertex attrib mids faceId index ::
        shapeCorners attrib mids (faceId + 1) rest

/-- The assembled vertices of all corners of all shapes, the face counter
running on across shape boundaries. -/
def cornerSeq (attrib : ObjAttrib) : List Shape → Nat → List Vertex
  | [], _ => []
  | shape :: rest, faceId =>
      shapeCorners attrib shape.material_ids faceId shape.indices ++
        cornerSeq attrib rest (faceId + shape.indices.length)

/-- Total number of corners across all shapes. -/
def totalCorners (shapes : List Shape) : Nat :=
  (shapes.map (fun sh => sh.indices.length)).sum

/-! ### `Model::SetMaterial` (lines 178-186) -/

/-- `SetMaterial`: guarded replacement of the sole material.  The source
throws (before any mutation) unless the table holds exactly one entry. -/
def SetMaterial (m : Model) (material : Material) : Except String Model :=
  if m.materials.length ≠ 1 then
    Except.error "cannot change material on a multi-material model"
  else
    Except.ok { m with materials := [material] }

/-! ### `Model::CreateSphere` (lines 152-176) -/

/-- Output of the external icosphere generator: flat parallel position /
normal / texcoord arrays, a triangulation index list, and the point count
(`Icosphere::VertexCount()`). -/
structure Icosphere where
  vertices : List ℚ
  normals : List ℚ
  texcoords : List ℚ
  indices : List Nat
  vertexCount : Nat
  deriving DecidableEq

/-- `CreateSphere`, parameterised by the external generator collaborator
`gen` (radius and subdivision level are handed to it; its output arrays are
consumed positionally, one vertex per generated point, no deduplication).
Texcoords are copied verbatim, the position is offset by the center, the
material index is fixed at 0, the index buffer is the generator's
triangulation, and the analytic descriptor is attached exactly when
`isProcedural` is set. -/
def CreateSphere (gen : ℚ → Int → Icosphere) (center : Vec3) (radius : ℚ)
    (subdivision : Int) (material : Material) (isProcedural : Bool) : Model :=
  let ico := gen radius subdivision
  { vertices := (List.range ico.vertexCount).map fun i =>
      { Position := ⟨ico.vertices.getD (i * 3 + 0) 0 + center.x,
                     ico.vertices.getD (i * 3 + 1) 0 + center.y,
                     ico.vertices.getD (i * 3 + 2) 0 + center.z⟩
        Normal := ⟨ico.normals.getD (i * 3 + 0) 0,
                   ico.normals.getD (i * 3 + 1) 0,
                   ico.normals.getD (i * 3 + 2) 0⟩
        TexCoord := ⟨ico.texcoords.getD (i * 2 + 0) 0,
                     ico.texcoords.getD (i * 2 + 1) 0⟩
        MaterialIndex := 0 }
    indices := ico.indices
    materials := [material]
    procedural := if isProcedural then some ⟨center, radius⟩ else none }

/-! ### `Model::Transform` (lines 188-197) -/

/-- Promotion of a vec3 to a homogeneous vec4 with the given w component. -/
def toVec4 (v : Vec3) (w : ℚ) : Fin 4 → ℚ :=
  ![v.x, v.y, v.z, w]

/-- Truncation of a homogeneous vector back to vec3 (glm drops w). -/
def toVec3 (v : Fin 4 → ℚ) : Vec3 :=
  ⟨v 0, v 1, v 2⟩

/-- `glm::inverseTranspose`: the transpose of the matrix inverse, computed as
the transposed adjugate scaled by the reciprocal determinant. -/
def inverseTranspose (t : Matrix (Fin 4) (Fin 4) ℚ) :
    Matrix (Fin 4) (Fin 4) ℚ :=
  (t.det)⁻¹ • Matrix.transpose t.adjugate

/-- `Model::Transform`: in place and in vertex order, every position becomes
`t * vec4(position, 1)` and every normal `inverseTranspose t * vec4(normal,
0)`, both truncated back to vec3. -/
def TransformModel (m : Model) (t : Matrix (Fin 4) (Fin 4) ℚ) : Model :=
  { m with vertices := m.vertices.map fun v =>
      { v with
        Position := toVec3 (t.mulVec (toVec4 v.Position 1))
        Normal := toVec3 ((inverseTranspose t).mulVec (toVec4 v.Normal 0)) } }

/-! ### Specification-side helper definitions -/

/-- Index of the first occurrence of `v` in `l`, if any. -/
def firstIdx (l : List Vertex) (v : Vertex) : Option Nat :=
  match l with
  | [] => none
  | a :: rest => if a = v then some 0 else (firstIdx rest v).map (· + 1)

/-- Invariant of the loader state maintained by the dedup pool: the
`uniqueVertices` map sends every vertex to the index of its first occurrence
in the vertex buffer, the vertex buffer holds no duplicates, and every emitted
index is in range. -/
structure GoodState (s : LoadState) : Prop where
  lookup_eq : ∀ v, lookupUniq s.uniq v = firstIdx s.vertices v
  nodup : s.vertices.Nodup
  bounds : ∀ i ∈ s.indices, i < s.vertices.length

/-! ### Concrete sample inputs (used to instantiate the theorems) -/

/-- A concrete vertex. -/
def sampleVertex : Vertex := ⟨⟨0, 0, 0⟩, ⟨0, 0, 1⟩, ⟨0, 0⟩, 0⟩

/-- A second concrete vertex, distinct from `sampleVertex`. -/
def sampleVertex2 : Vertex := ⟨⟨1, 0, 0⟩, ⟨0, 0, 1⟩, ⟨0, 0⟩, 0⟩

/-- A concrete attribute set: one position, one normal, no texcoords. -/
def sampleAttrib : ObjAttrib := ⟨[1, 2, 3], [0, 0, 1], []⟩

/-- A concrete attribute set with texcoords present. -/
def sampleAttribTex : ObjAttrib := ⟨[1, 2, 3], [0, 0, 1], [1/4, 1/3]⟩

/-- A concrete shape: one triangle whose three corners share the same
attribute indices, one material id. -/
def sampleShape : Shape := ⟨[⟨0, 0, 0⟩, ⟨0, 0, 0⟩, ⟨0, 0, 0⟩], [0]⟩

/-- A concrete one-material model. -/
def sampleModel1 : Model := ⟨[], [], [defaultMaterial], none⟩

/-- A concrete two-material model. -/
def sampleModel2 : Model := ⟨[], [], [defaultMaterial, defaultMaterial], none⟩

/-- A concrete material distinct from the default one. -/
def sampleMaterial : Material := ⟨⟨1, 0, 0, 1⟩⟩

/-- A concrete parsed material record. -/
def sampleObjMaterial : ObjMaterial := ⟨1/2, 1/2, 1/2⟩

/-- A concrete generator standing in for the icosphere: one point with a
texcoord whose second component is not 1/2, one degenerate triangle. -/
def sampleGen : ℚ → Int → Icosphere :=
  fun _ _ => ⟨[1, 0, 0], [1, 0, 0], [1/2, 1/3], [0, 0, 0], 1⟩

/-! ### Lemmas about `firstIdx` and `lookupUniq` -/

theorem firstIdx_eq_none_iff (l : List Vertex) (v : Vertex) :
    firstIdx l v = none ↔ v ∉ l := by
  induction l with
  | nil => simp [firstIdx]
  | cons a rest ih =>
      by_cases h : a = v
      · subst h
        simp [firstIdx]
      · simp [firstIdx, h, Option.map_eq_none', ih, Ne.symm h]

theorem firstIdx_lt_length {l : List Vertex} {v : Vertex} {i : Nat}
    (h : firstIdx l v = some i) : i < l.length := by
  induction l generalizing i with
  | nil => simp [firstIdx] at h
  | cons a rest ih =>
      by_cases ha : a = v
      · simp [firstIdx, ha] at h
        simp
        omega
      · simp [firstIdx, ha, Option.map_eq_some'] at h
        obtain ⟨j, hj, rfl⟩ := h
        have := ih hj
        simp
        omega

theorem firstIdx_get? {l : List Vertex} {v : Vertex} {i : Nat}
    (h : firstIdx l v = some i) : l.get? i = some v := by
  induction l generalizing i with
  | nil => simp [firstIdx] at h
  | cons a rest ih =>
      by_cases ha : a = v
      · simp [firstIdx, ha] at h
        subst h
        simp [ha]
      · simp [firstIdx, ha, Option.map_eq_some'] at h
        obtain ⟨j, hj, rfl⟩ := h
        simpa using ih hj

theorem firstIdx_mem {l : List Vertex} {v : Vertex} {i : Nat}
    (h : firstIdx l v = some i) : v ∈ l := by
  by_contra hv
  rw [← firstIdx_eq_none_iff l v] at hv
  rw [hv] at h
  exact Option.noConfusion h

theorem firstIdx_append_some {l l' : List Vertex} {v : Vertex} {i : Nat}
    (h : firstIdx l v = some i) : firstIdx (l ++ l') v = some i := by
  induction l generalizing i with
  | nil => simp [firstIdx] at h
  | cons a rest ih =>
      by_cases ha : a = v
      · simp [firstIdx, ha] at h ⊢
        exact h
      · simp [firstIdx, ha, Option.map_eq_some'] at h ⊢
        obtain ⟨j, hj, rfl⟩ := h
        exact ⟨j, ih hj, rfl⟩

theorem firstIdx_append_none {l l' : List Vertex} {v : Vertex}
    (h : firstIdx l v = none) :
    firstIdx (l ++ l') v = (firstIdx l' v).map (· + l.length) := by
  induction l with
  | nil =>
      simp [firstIdx]
  | cons a rest ih =>
      by_cases ha : a = v
      · simp [firstIdx, ha] at h
      · simp [firstIdx, ha, Option.map_eq_none'] at h
        simp [firstIdx, ha, ih h, Option.map_map]

theorem lookupUniq_append_some {l₁ l₂ : List (Vertex × Nat)} {v : Vertex}
    {i : Nat} (h : lookupUniq l₁ v = some i) :
    lookupUniq (l₁ ++ l₂) v = some i := by
  induction l₁ with
  | nil => simp [lookupUniq] at h
  | cons p rest ih =>
      by_cases hp : p.1 = v
      · simp [lookupUniq, hp] at h ⊢
        exact h
      · simp [lookupUniq, hp] at h ⊢
        exact ih h

theorem lookupUniq_append_none {l₁ l₂ : List (Vertex × Nat)} {v : Vertex}
    (h : lookupUniq l₁ v = none) :
    lookupUniq (l₁ ++ l₂) v = lookupUniq l₂ v := by
  induction l₁ with
  | nil => simp
  | cons p rest ih =>
      by_cases hp : p.1 = v
      · simp [lookupUniq, hp] at h
      · simp [lookupUniq, hp] at h ⊢
        exact ih h

theorem lookupUniq_singleton (w : Vertex) (n : Nat) (v : Vertex) :
    lookupUniq [(w, n)] v = if w = v then some n else none := rfl

/-! ### The pool invariant is established and preserved -/

theorem initState_good : GoodState initState :=
  ⟨fun _ => rfl, List.nodup_nil, by simp [initState]⟩

theorem internVertex_good {s : LoadState} (hs : GoodState s) (v : Vertex) :
    GoodState (internVertex s v) := by
  cases h : lookupUniq s.uniq v with
  | some i =>
      have hf : firstIdx s.vertices v = some i := by
        rw [← hs.lookup_eq v]
        exact h
      refine ⟨?_, ?_, ?_⟩ <;> simp only [internVertex, h]
      · exact hs.lookup_eq
      · exact hs.nodup
      · intro j hj
        rcases List.mem_append.mp hj with hj | hj
        · exact hs.bounds j hj
        · simp at hj
          subst hj
          exact firstIdx_lt_length hf
  | none =>
      have hnm : v ∉ s.vertices := by
        rw [← firstIdx_eq_none_iff s.vertices v, ← hs.lookup_eq v]
        exact h
      refine ⟨?_, ?_, ?_⟩ <;> simp only [internVertex, h]
      · intro w
        cases hw : lookupUniq s.uniq w with
        | some j =>
            rw [lookupUniq_append_some hw]
            have : firstIdx s.vertices w = some j := by
              rw [← hs.lookup_eq w]; exact hw
            rw [firstIdx_append_some this]
        | none =>
            rw [lookupUniq_append_none hw, lookupUniq_singleton]
            have hfw : firstIdx s.vertices w = none := by
              rw [← hs.lookup_eq w]; exact hw
            rw [firstIdx_append_none hfw]
            by_cases hvw : v = w <;> simp [firstIdx, hvw]
      · rw [List.nodup_append]
        refine ⟨hs.nodup, List.nodup_singleton v, ?_⟩
        intro a ha hav
        simp at hav
        subst hav
        exact hnm ha
      · intro j hj
        rcases List.mem_append.mp hj with hj | hj
        · have := hs.bounds j hj
          simp
          omega
        · simp at hj
          subst hj
          simp

theorem foldl_internVertex_good :
    ∀ (cs : List Vertex) {s : LoadState}, GoodState s →
      GoodState (cs.foldl internVertex s)
  | [], _, hs => hs
  | c :: cs, _, hs =>
      foldl_internVertex_good cs (internVertex_good hs c)

theorem internVertex_mem {s : LoadState} (hs : GoodState s) (c a : Vertex) :
    a ∈ (internVertex s c).vertices ↔ a ∈ s.vertices ∨ a = c := by
  cases h : lookupUniq s.uniq c with
  | some i =>
      have hc : c ∈ s.vertices := firstIdx_mem (by rw [← hs.lookup_eq c]; exact h)
      simp only [internVertex, h]
      constructor
      · exact Or.inl
      · rintro (ha | rfl)
        · exact ha
        · exact hc
  | none =>
      simp [internVertex, h]

theorem foldl_internVertex_mem :
    ∀ (cs : List Vertex) {s : LoadState}, GoodState s → ∀ a,
      (a ∈ (cs.foldl internVertex s).vertices ↔ a ∈ s.vertices ∨ a ∈ cs)
  | [], _, _, a => by simp
  | c :: cs, s, hs, a => by
      have ih := foldl_internVertex_mem cs (internVertex_good hs c) a
      simp only [List.foldl_cons] at ih ⊢
      rw [ih, internVertex_mem hs c a]
      simp [or_assoc]

theorem internVertex_indices_length (s : LoadState) (v : Vertex) :
    (internVertex s v).indices.length = s.indices.length + 1 := by
  cases h : lookupUniq s.uniq v <;> simp [internVertex, h]

theorem foldl_internVertex_indices_length :
    ∀ (cs : List Vertex) (s : LoadState),
      (cs.foldl internVertex s).indices.length = s.indices.length + cs.length
  | [], s => by simp
  | c :: cs, s => by
      simp only [List.foldl_cons]
      rw [foldl_internVertex_indices_length cs, internVertex_indices_length]
      simp
      omega

theorem internVertex_faceId (s : LoadState) (v : Vertex) :
    (internVertex s v).faceId = s.faceId := by
  cases h : lookupUniq s.uniq v <;> simp [internVertex, h]

theorem internVertex_setFace (s : LoadState) (n : Nat) (v : Vertex) :
    internVertex { s with faceId := n } v =
      { internVertex s v with faceId := n } := by
  cases h : lookupUniq s.uniq v <;> simp [internVertex, h]

theorem foldl_internVertex_setFace :
    ∀ (cs : List Vertex) (s : LoadState) (n : Nat),
      cs.foldl internVertex { s with faceId := n } =
        { cs.foldl internVertex s with faceId := n }
  | [], _, _ => rfl
  | c :: cs, s, n => by
      simp only [List.foldl_cons]
      rw [internVertex_setFace, foldl_internVertex_setFace cs]

/-! ### The stateful double loop equals interning the flat corner stream -/

theorem foldl_internCorner_eq (attrib : ObjAttrib) (mids : List Int) :
    ∀ (l : List ObjIndex) (s : LoadState),
      l.foldl (internCorner attrib mids) s =
        { (shapeCorners attrib mids s.faceId l).foldl internVertex s with
          faceId := s.faceId + l.length }
  | [], s => by simp [shapeCorners]
  | idx :: rest, s => by
      simp only [List.foldl_cons, shapeCorners]
      rw [show internCorner attrib mids s idx =
            { internVertex s (makeVertex attrib mids s.faceId idx) with
              faceId := s.faceId + 1 } from internVertex_setFace ..]
      rw [foldl_internCorner_eq attrib mids rest]
      rw [foldl_internVertex_setFace]
      simp only [List.length_cons]
      congr 1
      omega

theorem processShape_eq (attrib : ObjAttrib) (s : LoadState) (sh : Shape) :
    processShape attrib s sh =
      { (shapeCorners attrib sh.material_ids s.faceId sh.indices).foldl
          internVertex s with
        faceId := s.faceId + sh.indices.length } :=
  foldl_internCorner_eq attrib sh.material_ids sh.indices s

theorem foldl_processShape_eq (attrib : ObjAttrib) :
    ∀ (shapes : List Shape) (s : LoadState),
      shapes.foldl (processShape attrib) s =
        { (cornerSeq attrib shapes s.faceId).foldl internVertex s with
          faceId := s.faceId + totalCorners shapes }
  | [], s => by simp [cornerSeq, totalCorners]
  | sh :: rest, s => by
      simp only [List.foldl_cons, cornerSeq]
      rw [processShape_eq]
      rw [foldl_processShape_eq attrib rest]
      rw [foldl_internVertex_setFace]
      rw [List.foldl_append]
      simp only [totalCorners, List.map_cons, List.sum_cons]
      congr 1
      omega

theorem loadGeometry_eq (attrib : ObjAttrib) (shapes : List Shape) :
    loadGeometry attrib shapes =
      { (cornerSeq attrib shapes 0).foldl internVertex initState with
        faceId := totalCorners shapes } := by
  rw [loadGeometry, foldl_processShape_eq]
  simp [initState]

theorem loadGeometry_good (attrib : ObjAttrib) (shapes : List Shape) :
    GoodState (loadGeometry attrib shapes) := by
  rw [loadGeometry_eq]
  have h := foldl_internVertex_good (cornerSeq attrib shapes 0) initState_good
  exact ⟨h.lookup_eq, h.nodup, h.bounds⟩

theorem loadGeometry_mem (attrib : ObjAttrib) (shapes : List Shape)
    (a : Vertex) :
    a ∈ (loadGeometry attrib shapes).vertices ↔
      a ∈ cornerSeq attrib shapes 0 := by
  rw [loadGeometry_eq]
  have h := foldl_internVertex_mem (cornerSeq attrib shapes 0) initState_good a
  simpa [initState] using h

/-! ### Facts about the flat corner stream -/

theorem shapeCorners_length (attrib : ObjAttrib) (mids : List Int) :
    ∀ (f : Nat) (l : List ObjIndex),
      (shapeCorners attrib mids f l).length = l.length
  | _, [] => rfl
  | f, _ :: rest => by
      simp [shapeCorners, shapeCorners_length attrib mids (f + 1) rest]

theorem cornerSeq_length (attrib : ObjAttrib) :
    ∀ (shapes : List Shape) (f : Nat),
      (cornerSeq attrib shapes f).length = totalCorners shapes
  | [], _ => rfl
  | sh :: rest, f => by
      simp [cornerSeq, totalCorners, shapeCorners_length,
        cornerSeq_length attrib rest (f + sh.indices.length)]

theorem shapeCorners_get? (attrib : ObjAttrib) (mids : List Int) :
    ∀ (l : List ObjIndex) (f c : Nat),
      (shapeCorners attrib mids f l).get? c =
        (l.get? c).map (makeVertex attrib mids (f + c))
  | [], _, _ => by simp [shapeCorners]
  | idx :: rest, f, 0 => by simp [shapeCorners]
  | idx :: rest, f, c + 1 => by
      simp only [shapeCorners, List.get?]
      rw [shapeCorners_get? attrib mids rest (f + 1) c]
      have h : f + 1 + c = f + (c + 1) := by omega
      rw [h]

theorem shapeCorners_mem (attrib : ObjAttrib) (mids : List Int) :
    ∀ {l : List ObjIndex} {f : Nat} {v : Vertex},
      v ∈ shapeCorners attrib mids f l →
        ∃ g idx, idx ∈ l ∧ v = makeVertex attrib mids g idx := by
  intro l
  induction l with
  | nil => intro f v hv; simp [shapeCorners] at hv
  | cons idx rest ih =>
      intro f v hv
      simp only [shapeCorners, List.mem_cons] at hv
      rcases hv with rfl | hv
      · exact ⟨f, idx, by simp⟩
      · obtain ⟨g, idx2, hmem, rfl⟩ := ih hv
        exact ⟨g, idx2, by simp [hmem]⟩

theorem cornerSeq_mem (attrib : ObjAttrib) :
    ∀ {shapes : List Shape} {f : Nat} {v : Vertex},
      v ∈ cornerSeq attrib shapes f →
        ∃ sh, sh ∈ shapes ∧ ∃ g idx, idx ∈ sh.indices ∧
          v = makeVertex attrib sh.material_ids g idx := by
  intro shapes
  induction shapes with
  | nil => intro f v hv; simp [cornerSeq] at hv
  | cons sh rest ih =>
      intro f v hv
      simp only [cornerSeq, List.mem_append] at hv
      rcases hv with hv | hv
      · obtain ⟨g, idx, hmem, rfl⟩ := shapeCorners_mem attrib sh.material_ids hv
        exact ⟨sh, by simp, g, idx, hmem, rfl⟩
      · obtain ⟨sh2, hsh2, g, idx, hmem, rfl⟩ := ih hv
        exact ⟨sh2, by simp [hsh2], g, idx, hmem, rfl⟩

/-! ### Claim theorems -/

/-- C6: `SetMaterial` on a model with more than one material fails with the
invalid-operation error and produces no mutated model; on a model with
exactly one material it replaces that single material exactly. -/
theorem setMaterial_guard (m : Model) (mat : Material) :
    (1 < m.materials.length →
      SetMaterial m mat =
        Except.error "cannot change material on a multi-material model") ∧
    (m.materials.length = 1 →
      SetMaterial m mat = Except.ok { m with materials := [mat] }) := by
  constructor
  · intro h
    have hne : m.materials.length ≠ 1 := by omega
    simp [SetMaterial, hne]
  · intro h
    simp [SetMaterial, h]

theorem setMaterial_guard_witness :
    SetMaterial sampleModel2 sampleMaterial =
      Except.error "cannot change material on a multi-material model" ∧
    SetMaterial sampleModel1 sampleMaterial =
      Except.ok { sampleModel1 with materials := [sampleMaterial] } :=
  ⟨(setMaterial_guard sampleModel2 sampleMaterial).1 (by decide),
   (setMaterial_guard sampleModel1 sampleMaterial).2 (by decide)⟩

/-- C7: `CreateSphere` produces a model with exactly one vertex per generated
point (no deduplication), positions offset by the center, material index 0
throughout, the single supplied material, the generator triangulation copied
verbatim, and the analytic descriptor exactly when the procedural flag is
set. -/
theorem createSphere_contract (gen : ℚ → Int → Icosphere) (center : Vec3)
    (radius : ℚ) (subdivision : Int) (material : Material)
    (isProcedural : Bool) :
    (CreateSphere gen center radius subdivision material
        isProcedural).vertices.length = (gen radius subdivision).vertexCount ∧
    (∀ i : Fin (CreateSphere gen center radius subdivision material
        isProcedural).vertices.length,
      ((CreateSphere gen center radius subdivision material
          isProcedural).vertices.get i).Position =
        ⟨(gen radius subdivision).vertices.getD (i.val * 3 + 0) 0 + center.x,
         (gen radius subdivision).vertices.getD (i.val * 3 + 1) 0 + center.y,
         (gen radius subdivision).vertices.getD (i.val * 3 + 2) 0 + center.z⟩ ∧
      ((CreateSphere gen center radius subdivision material
          isProcedural).vertices.get i).MaterialIndex = 0) ∧
    (CreateSphere gen center radius subdivision material
        isProcedural).materials = [material] ∧
    (CreateSphere gen center radius subdivision material
        isProcedural).indices = (gen radius subdivision).indices ∧
    (CreateSphere gen center radius subdivision material
        isProcedural).procedural =
      (if isProcedural then some ⟨center, radius⟩ else none) := by
  refine ⟨by simp [CreateSphere], ?_, rfl, rfl, rfl⟩
  intro i
  constructor <;>
    simp [CreateSphere, List.get_eq_getElem, List.getElem_map,
      List.getElem_range]

/-- C8: `Transform` rewrites, in place and in vertex order, every position as
`t * (position, 1)` and every normal as `inverseTranspose t * (normal, 0)`;
and for an invertible matrix `inverseTranspose` really is the transpose of
the matrix inverse. -/
theorem transform_semantics (m : Model) (t : Matrix (Fin 4) (Fin 4) ℚ) :
    (TransformModel m t).vertices =
      m.vertices.map (fun v =>
        { v with
          Position := toVec3 (t.mulVec (toVec4 v.Position 1))
          Normal :=
            toVec3 ((inverseTranspose t).mulVec (toVec4 v.Normal 0)) }) ∧
    (t.det ≠ 0 → inverseTranspose t = Matrix.transpose t⁻¹) := by
  constructor
  · rfl
  · intro _
    rw [inverseTranspose, Matrix.inv_def, Matrix.transpose_smul,
      Ring.inverse_eq_inv]

theorem transform_semantics_witness :
    (TransformModel sampleModel1 1).vertices =
      sampleModel1.vertices.map (fun v =>
        { v with
          Position := toVec3 ((1 : Matrix (Fin 4) (Fin 4) ℚ).mulVec
            (toVec4 v.Position 1))
          Normal := toVec3 ((inverseTranspose 1).mulVec
            (toVec4 v.Normal 0)) }) ∧
    inverseTranspose 1 = Matrix.transpose (1 : Matrix (Fin 4) (Fin 4) ℚ)⁻¹ :=
  ⟨(transform_semantics sampleModel1 1).1,
   (transform_semantics sampleModel1 1).2 (by simp)⟩

/-- C9: `Transform` leaves the index buffer, the material table, the
analytic descriptor, the vertex count, and every vertex's texture coordinate
and material index unchanged. -/
theorem transform_frame_effect (m : Model) (t : Matrix (Fin 4) (Fin 4) ℚ) :
    (TransformModel m t).indices = m.indices ∧
    (TransformModel m t).materials = m.materials ∧
    (TransformModel m t).procedural = m.procedural ∧
    (TransformModel m t).vertices.length = m.vertices.length ∧
    (TransformModel m t).vertices.map Vertex.TexCoord =
      m.vertices.map Vertex.TexCoord ∧
    (TransformModel m t).vertices.map Vertex.MaterialIndex =
      m.vertices.map Vertex.MaterialIndex := by
  refine ⟨rfl, rfl, rfl, by simp [TransformModel], ?_, ?_⟩ <;>
    simp [TransformModel, List.map_map, Function.comp]

/-- C10: `CreateSphere` copies the generator's texture coordinates verbatim,
with no V flip: the stored second component is the generator's `v`, not
`1 - v`. -/
theorem createSphere_texcoord_verbatim (gen : ℚ → Int → Icosphere)
    (center : Vec3) (radius : ℚ) (subdivision : Int) (material : Material)
    (isProcedural : Bool) :
    ∀ i : Fin (CreateSphere gen center radius subdivision material
        isProcedural).vertices.length,
      ((CreateSphere gen center radius subdivision material
          isProcedural).vertices.get i).TexCoord =
        ⟨(gen radius subdivision).texcoords.getD (i.val * 2 + 0) 0,
         (gen radius subdivision).texcoords.getD (i.val * 2 + 1) 0⟩ := by
  intro i
  simp [CreateSphere, List.get_eq_getElem, List.getElem_map,
    List.getElem_range]

/-! ### LoadModel claims -/

theorem totalCorners_mod3 :
    ∀ (shapes : List Shape),
      (∀ sh ∈ shapes, sh.indices.length % 3 = 0) →
        totalCorners shapes % 3 = 0
  | [], _ => rfl
  | sh :: rest, h => by
      have h1 := h sh (List.mem_cons_self ..)
      have h2 := totalCorners_mod3 rest fun s hs => h s (List.mem_cons_of_mem _ hs)
      simp only [totalCorners, List.map_cons, List.sum_cons]
      simp only [totalCorners] at h2
      omega

theorem loadGeometry_indices_length (attrib : ObjAttrib)
    (shapes : List Shape) :
    (loadGeometry attrib shapes).indices.length = totalCorners shapes := by
  rw [loadGeometry_eq]
  show ((cornerSeq attrib shapes 0).foldl internVertex initState).indices.length
      = totalCorners shapes
  rw [foldl_internVertex_indices_length]
  simp [initState, cornerSeq_length]

/-- C2: every value in the index buffer of a loaded model is strictly below
the vertex count, and — for triangulated parser output (every shape's corner
count a multiple of 3, which the parser guarantees) — the index buffer length
is a multiple of 3. -/
theorem load_index_validity (attrib : ObjAttrib) (shapes : List Shape)
    (objMaterials : List ObjMaterial) :
    (∀ i ∈ (LoadModel attrib shapes objMaterials).indices,
       i < (LoadModel attrib shapes objMaterials).vertices.length) ∧
    ((∀ sh ∈ shapes, sh.indices.length % 3 = 0) →
       (LoadModel attrib shapes objMaterials).indices.length % 3 = 0) := by
  constructor
  · intro i hi
    exact (loadGeometry_good attrib shapes).bounds i hi
  · intro h
    show (loadGeometry attrib shapes).indices.length % 3 = 0
    rw [loadGeometry_indices_length]
    exact totalCorners_mod3 shapes h

theorem load_index_validity_witness :
    (∀ i ∈ (LoadModel sampleAttrib [sampleShape] []).indices,
       i < (LoadModel sampleAttrib [sampleShape] []).vertices.length) ∧
    (LoadModel sampleAttrib [sampleShape] []).indices.length % 3 = 0 :=
  ⟨(load_index_validity sampleAttrib [sampleShape] []).1,
   (load_index_validity sampleAttrib [sampleShape] []).2 (by decide)⟩

/-- C3: the material table of a loaded model is never empty — when the parsed
material list is empty exactly the fallback gray (0.7, 0.7, 0.7, 1.0) is
inserted, otherwise each parsed material keeps its diffuse rgb with alpha
forced to 1 — and, given the parser's guarantee that every face material id
is below the parsed material count, every vertex's material index is
strictly below the table size. -/
theorem load_material_invariant (attrib : ObjAttrib) (shapes : List Shape)
    (objMaterials : List ObjMaterial) :
    (LoadModel attrib shapes objMaterials).materials ≠ [] ∧
    (objMaterials = [] →
      (LoadModel attrib shapes objMaterials).materials = [defaultMaterial]) ∧
    (objMaterials ≠ [] →
      (LoadModel attrib shapes objMaterials).materials =
        objMaterials.map toMaterial) ∧
    ((∀ sh ∈ shapes, ∀ mid ∈ sh.material_ids,
        mid < (objMaterials.length : Int)) →
      ∀ v ∈ (LoadModel attrib shapes objMaterials).vertices,
        v.MaterialIndex <
          ((LoadModel attrib shapes objMaterials).materials.length : Int)) := by
  refine ⟨?_, ?_, ?_, ?_⟩
  · show resolveMaterials objMaterials ≠ []
    cases objMaterials <;> simp [resolveMaterials]
  · intro h
    subst h
    rfl
  · intro h
    show resolveMaterials objMaterials = objMaterials.map toMaterial
    cases objMaterials with
    | nil => exact absurd rfl h
    | cons a l => simp [resolveMaterials]
  · intro hids v hv
    have hv2 : v ∈ cornerSeq attrib shapes 0 :=
      (loadGeometry_mem attrib shapes v).1 hv
    obtain ⟨sh, hsh, g, idx, _, rfl⟩ := cornerSeq_mem attrib hv2
    show max 0 (sh.material_ids.getD (g / 3) (-1)) <
      ((resolveMaterials objMaterials).length : Int)
    have hpos : 1 ≤ (resolveMaterials objMaterials).length := by
      cases objMaterials <;> simp [resolveMaterials]
    have hrl : objMaterials.length ≤ (resolveMaterials objMaterials).length := by
      cases objMaterials <;> simp [resolveMaterials]
    have hread : sh.material_ids.getD (g / 3) (-1) ∈ sh.material_ids ∨
        sh.material_ids.getD (g / 3) (-1) = -1 := by
      rcases hg : sh.material_ids[g / 3]? with _ | x
      · right
        simp [List.getD_eq_getElem?_getD, hg]
      · left
        have heq : sh.material_ids.getD (g / 3) (-1) = x := by
          simp [List.getD_eq_getElem?_getD, hg]
        rw [heq]
        exact List.getElem?_mem hg
    rw [max_lt_iff]
    rcases hread with hmem | heq
    · have hlt := hids sh hsh _ hmem
      constructor <;> omega
    · rw [heq]
      constructor <;> omega

theorem load_material_invariant_witness :
    (LoadModel sampleAttrib [sampleShape] [sampleObjMaterial]).materials ≠ [] ∧
    (LoadModel sampleAttrib [sampleShape] []).materials = [defaultMaterial] ∧
    (LoadModel sampleAttrib [sampleShape] [sampleObjMaterial]).materials =
      [sampleObjMaterial].map toMaterial ∧
    (∀ v ∈ (LoadModel sampleAttrib [sampleShape] [sampleObjMaterial]).vertices,
      v.MaterialIndex <
        ((LoadModel sampleAttrib [sampleShape]
            [sampleObjMaterial]).materials.length : Int)) :=
  ⟨(load_material_invariant sampleAttrib [sampleShape] [sampleObjMaterial]).1,
   (load_material_invariant sampleAttrib [sampleShape] []).2.1 rfl,
   (load_material_invariant sampleAttrib [sampleShape]
      [sampleObjMaterial]).2.2.1 (by decide),
   (load_material_invariant sampleAttrib [sampleShape]
      [sampleObjMaterial]).2.2.2 (by decide)⟩

/-- C4: a single face counter runs across all shapes (the loop equals
interning the flat corner stream whose numbering continues across shape
boundaries), it is incremented once per corner visited (its final value is
the total corner count), and the corner at offset `c` of a shape entered
with counter value `f` gets material index `max 0 (materialIds[(f + c) / 3])`
— one material id per triangle of three corners, never left negative. -/
theorem load_per_corner_material (attrib : ObjAttrib) (shapes : List Shape) :
    loadGeometry attrib shapes =
      { (cornerSeq attrib shapes 0).foldl internVertex initState with
        faceId := totalCorners shapes } ∧
    (loadGeometry attrib shapes).faceId = totalCorners shapes ∧
    (∀ (mids : List Int) (f : Nat) (l : List ObjIndex) (c : Nat) (v : Vertex),
      (shapeCorners attrib mids f l).get? c = some v →
        v.MaterialIndex = max 0 (mids.getD ((f + c) / 3) (-1)) ∧
        0 ≤ v.MaterialIndex) := by
  refine ⟨loadGeometry_eq attrib shapes, ?_, ?_⟩
  · rw [loadGeometry_eq]
  · intro mids f l c v hv
    rw [shapeCorners_get? attrib mids l f c, Option.map_eq_some'] at hv
    obtain ⟨idx, _, rfl⟩ := hv
    exact ⟨rfl, le_max_left 0 _⟩

theorem load_per_corner_material_witness :
    (loadGeometry sampleAttrib [sampleShape]).faceId =
      totalCorners [sampleShape] ∧
    (makeVertex sampleAttrib [0] 1 ⟨0, 0, 0⟩).MaterialIndex =
      max 0 (([0] : List Int).getD ((0 + 1) / 3) (-1)) ∧
    0 ≤ (makeVertex sampleAttrib [0] 1 ⟨0, 0, 0⟩).MaterialIndex :=
  ⟨(load_per_corner_material sampleAttrib [sampleShape]).2.1,
   ((load_per_corner_material sampleAttrib [sampleShape]).2.2
      [0] 0 sampleShape.indices 1 _ (by decide)).1,
   ((load_per_corner_material sampleAttrib [sampleShape]).2.2
      [0] 0 sampleShape.indices 1 _ (by decide)).2⟩

/-- C5: for every corner assembled by the loader, when the source texcoord
array is non-empty the stored texture coordinate is the source pair with the
second component flipped to `1 - v`; when it is empty the zero default is
stored; and every corner processed by the load is assembled this way. -/
theorem load_uv_flip (attrib : ObjAttrib) :
    (∀ (mids : List Int) (f : Nat) (idx : ObjIndex),
       attrib.texcoords = [] →
         (makeVertex attrib mids f idx).TexCoord = ⟨0, 0⟩) ∧
    (∀ (mids : List Int) (f : Nat) (idx : ObjIndex),
       attrib.texcoords ≠ [] →
         (makeVertex attrib mids f idx).TexCoord =
           ⟨attrib.texcoords.getD (2 * idx.texcoord_index + 0) 0,
            1 - attrib.texcoords.getD (2 * idx.texcoord_index + 1) 0⟩) ∧
    (∀ (shapes : List Shape) (v : Vertex),
       v ∈ cornerSeq attrib shapes 0 →
         ∃ sh, sh ∈ shapes ∧ ∃ f idx, idx ∈ sh.indices ∧
           v = makeVertex attrib sh.material_ids f idx) := by
  refine ⟨?_, ?_, fun shapes v => cornerSeq_mem attrib⟩
  · intro mids f idx h
    simp [makeVertex, h]
  · intro mids f idx h
    have hie : attrib.texcoords.isEmpty = false := by
      cases htc : attrib.texcoords <;> simp_all
    simp [makeVertex, hie]

theorem load_uv_flip_witness :
    (makeVertex sampleAttrib [0] 0 ⟨0, 0, 0⟩).TexCoord = ⟨0, 0⟩ ∧
    (makeVertex sampleAttribTex [0] 0 ⟨0, 0, 0⟩).TexCoord =
      ⟨sampleAttribTex.texcoords.getD 0 0,
       1 - sampleAttribTex.texcoords.getD 1 0⟩ ∧
    (∃ sh, sh ∈ [sampleShape] ∧ ∃ f idx, idx ∈ sh.indices ∧
       makeVertex sampleAttrib sampleShape.material_ids 0 ⟨0, 0, 0⟩ =
         makeVertex sampleAttrib sh.material_ids f idx) :=
  ⟨(load_uv_flip sampleAttrib).1 [0] 0 ⟨0, 0, 0⟩ rfl,
   (load_uv_flip sampleAttribTex).2.1 [0] 0 ⟨0, 0, 0⟩ (by decide),
   (load_uv_flip sampleAttrib).2.2 [sampleShape] _ (by decide)⟩

/-- C1: on the first occurrence of an attribute tuple the dedup pool appends
the vertex and assigns the old length as its index; on a repeat occurrence it
returns the previously recorded index without appending; consequently the
loaded vertex buffer has exactly one entry per distinct attribute tuple
occurring among the corners, and no two distinct index values reference
field-wise equal vertices. -/
theorem load_dedup_correct :
    (∀ (s : LoadState) (v : Vertex), GoodState s →
       (v ∉ s.vertices →
          internVertex s v =
            ⟨s.vertices ++ [v], s.uniq ++ [(v, s.vertices.length)],
             s.indices ++ [s.vertices.length], s.faceId⟩) ∧
       (∀ i, firstIdx s.vertices v = some i →
          internVertex s v = { s with indices := s.indices ++ [i] })) ∧
    (∀ (attrib : ObjAttrib) (shapes : List Shape)
       (objMaterials : List ObjMaterial),
       (LoadModel attrib shapes objMaterials).vertices.length =
         (cornerSeq attrib shapes 0).toFinset.card ∧
       (LoadModel attrib shapes objMaterials).vertices.Nodup ∧
       (∀ i ∈ (LoadModel attrib shapes objMaterials).indices,
        ∀ j ∈ (LoadModel attrib shapes objMaterials).indices,
          (LoadModel attrib shapes objMaterials).vertices.get? i =
            (LoadModel attrib shapes objMaterials).vertices.get? j →
            i = j)) := by
  constructor
  · intro s v hs
    constructor
    · intro hv
      have h : lookupUniq s.uniq v = none := by
        rw [hs.lookup_eq v, firstIdx_eq_none_iff]
        exact hv
      simp [internVertex, h]
    · intro i hi
      have h : lookupUniq s.uniq v = some i := by
        rw [hs.lookup_eq v]
        exact hi
      simp [internVertex, h]
  · intro attrib shapes objMaterials
    have hgood := loadGeometry_good attrib shapes
    have hnodup : (loadGeometry attrib shapes).vertices.Nodup := hgood.nodup
    have hfin : (loadGeometry attrib shapes).vertices.toFinset =
        (cornerSeq attrib shapes 0).toFinset := by
      ext a
      simp only [List.mem_toFinset]
      exact loadGeometry_mem attrib shapes a
    refine ⟨?_, hnodup, ?_⟩
    · show (loadGeometry attrib shapes).vertices.length = _
      rw [← List.toFinset_card_of_nodup hnodup, hfin]
    · intro i hi j hj hij
      have hib := hgood.bounds i hi
      have hjb := hgood.bounds j hj
      have hij2 : (loadGeometry attrib shapes).vertices.get? i =
          (loadGeometry attrib shapes).vertices.get? j := hij
      rw [List.get?_eq_get hib, List.get?_eq_get hjb] at hij2
      have := (List.Nodup.get_inj_iff hnodup).mp (Option.some.inj hij2)
      exact congrArg Fin.val this

theorem load_dedup_correct_witness :
    internVertex initState sampleVertex =
      ⟨[sampleVertex], [(sampleVertex, 0)], [0], 0⟩ ∧
    internVertex (internVertex initState sampleVertex) sampleVertex =
      { internVertex initState sampleVertex with
        indices := (internVertex initState sampleVertex).indices ++ [0] } ∧
    (LoadModel sampleAttrib [sampleShape] []).vertices.length =
      (cornerSeq sampleAttrib [sampleShape] 0).toFinset.card :=
  ⟨(load_dedup_correct.1 initState sampleVertex initState_good).1 (by decide),
   (load_dedup_correct.1 (internVertex initState sampleVertex) sampleVertex
      (internVertex_good initState_good sampleVertex)).2 0 (by decide),
   (load_dedup_correct.2 sampleAttrib [sampleShape] []).1⟩

end Assets
